import Mathlib

/-!
# Per-client rate limiting middleware (`main.go`)

A shallow embedding of `perClientRateLimiter` and `endpointHandler`.

* Time is measured in seconds as a rational number; tokens are rational.
* The client map `map[string]*client` is an association list with unique keys.
* The handler and the reaper are embedded as sequential state transformers on
  the client map: the mutex operations have no sequential effect and are
  dropped.
* `net.SplitHostPort` is library code; the handler takes it as a parameter
  `split`, where `none` stands for a returned error.
* The handler reads the clock twice, once for `LastSeen` and once inside
  `Allow`; it takes the two readings as `seen` and `now`. In a sequence of
  requests each request has one instant, which both readings return.
* A pass of the reaper reads the clock once.
* For concurrent requests the handler is cut where it takes and releases the
  mutex (`Stage`, `stepStage`); a schedule (`interleave`) orders the steps of the
  requests in flight.
-/

namespace RateLimit

/-- The JSON payload `Message` of `main.go`. -/
structure Message where
  Status : String
  Body : String
deriving DecidableEq, Repr

/-- What a handler wrote to its `http.ResponseWriter`: the headers it set,
the status code passed to `WriteHeader`, and the JSON-encoded message, if any. -/
structure Response where
  header : List (String × String)
  code : Nat
  body : Option Message
deriving DecidableEq, Repr

def StatusOK : Nat := 200
def StatusTooManyRequests : Nat := 429
def StatusInternalServerError : Nat := 500

/-- The base endpoint `endpointHandler`. -/
def endpointHandler : Response :=
  { header := [("Content-Type", "application/json")]
    code := StatusOK
    body := some { Status := "Successful"
                   Body := "Hi! You've reached the API. How may I help you?" } }

/-- Bucket state of a limiter. -/
structure TokenBucket where
  capacity : ℚ
  refillRate : ℚ
  tokens : ℚ
  lastRefill : ℚ
deriving DecidableEq

/-- Modelled from the spec: `rate.NewLimiter` of `golang.org/x/time/rate` is not
part of the sources; a new limiter is a fresh full-capacity bucket. -/
def NewLimiter (r : ℚ) (b : ℚ) (now : ℚ) : TokenBucket :=
  { capacity := b, refillRate := r, tokens := b, lastRefill := now }

/-- Modelled from the spec: step 1 of `allow(now)` of the token bucket
(`rate.Limiter` is not part of the sources): with `elapsed = now - lastRefill`,
if `elapsed > 0` then `tokens = min(capacity, tokens + elapsed * refillRate)`
and `lastRefill = now`. -/
def TokenBucket.refill (b : TokenBucket) (now : ℚ) : TokenBucket :=
  let elapsed := now - b.lastRefill
  if elapsed > 0 then
    { b with tokens := min b.capacity (b.tokens + elapsed * b.refillRate), lastRefill := now }
  else b

/-- Modelled from the spec: `allow(now)` of the token bucket (`rate.Limiter.Allow`
is not part of the sources): refill, then if `tokens ≥ 1` consume one token and
admit, else reject. Returns the decision and the new bucket state. -/
def TokenBucket.allow (b : TokenBucket) (now : ℚ) : Bool × TokenBucket :=
  let b1 := b.refill now
  if b1.tokens ≥ 1 then (true, { b1 with tokens := b1.tokens - 1 })
  else (false, b1)

/-- The local type `client` of `perClientRateLimiter`. -/
structure client where
  LastSeen : ℚ
  Limiter : TokenBucket
deriving DecidableEq

/-- The map `clients`. -/
abbrev Registry := AList (fun _ : String => client)

/-- The map created by `make(map[string]*client)`. -/
def emptyRegistry : Registry := ∅

def respFailed : Response :=
  { header := []
    code := StatusTooManyRequests
    body := some { Status := "Request Failed"
                   Body := "The API is at capacity, try again later." } }

def respOK : Response :=
  { header := []
    code := StatusOK
    body := some { Status := "Request OK", Body := "OK" } }

def respError : Response :=
  { header := [], code := StatusInternalServerError, body := none }

/-- The request handler returned by `perClientRateLimiter`, run on the client
map `clients` for a request with source address `RemoteAddr`; `seen` is the
clock reading stored in `LastSeen` and `now` the clock reading of the limiter.
Returns the new client map and the response written. The handler `next` is
never called by the source and so does not appear. -/
def perClientRateLimiter (split : String → Option (String × String))
    (clients : Registry) (RemoteAddr : String) (seen now : ℚ) : Registry × Response :=
  match split RemoteAddr with
  | none => (clients, respError)
  | some (ip, _) =>
    let clients1 : Registry :=
      match clients.lookup ip with
      | none => clients.insert ip { LastSeen := 0, Limiter := NewLimiter 5 20 now }
      | some _ => clients
    match clients1.lookup ip with
    | none => (clients1, respError) -- nil dereference; unreachable, see `lookup_ensured`
    | some c =>
      let r := c.Limiter.allow now
      let clients2 := clients1.insert ip { LastSeen := seen, Limiter := r.2 }
      if !r.1 then (clients2, respFailed) else (clients2, respOK)

/-- One pass of the reaper loop body at instant `now`: range over the entries
and delete every one with `time.Since(c.LastSeen) > time.Minute`. -/
def sweep (clients : Registry) (now : ℚ) : Registry :=
  clients.entries.foldl
    (fun acc e => if now - e.2.LastSeen > 60 then acc.erase e.1 else acc) clients

/-- The limiter the handler consults for `ip`: the one stored in the map, or
the one it creates when the map has no entry for `ip`. -/
def clientBucket (clients : Registry) (ip : String) (now : ℚ) : TokenBucket :=
  match clients.lookup ip with
  | none => NewLimiter 5 20 now
  | some c => c.Limiter

/-- Serve a sequence of requests `(RemoteAddr, now)` one after the other, each
at its instant `now`, and collect the responses. -/
def serve (split : String → Option (String × String)) :
    Registry → List (String × ℚ) → Registry × List Response
  | clients, [] => (clients, [])
  | clients, (addr, now) :: rest =>
    let r := perClientRateLimiter split clients addr now now
    let rs := serve split r.1 rest
    (rs.1, r.2 :: rs.2)

/-- An event of a sequential execution: a request handled at an instant, or a
pass of the reaper at an instant. -/
inductive Event where
  | request (RemoteAddr : String) (now : ℚ)
  | reap (now : ℚ)
deriving DecidableEq

def Event.time : Event → ℚ
  | .request _ now => now
  | .reap now => now

def Event.isRequest : Event → Bool
  | .request _ _ => true
  | .reap _ => false

/-- Run a sequence of events from a client map; the responses of the requests
are collected in order. -/
def run (split : String → Option (String × String)) :
    Registry → List Event → Registry × List Response
  | clients, [] => (clients, [])
  | clients, .request addr now :: rest =>
    let r := perClientRateLimiter split clients addr now now
    let rs := run split r.1 rest
    (rs.1, r.2 :: rs.2)
  | clients, .reap now :: rest => run split (sweep clients now) rest

/-- Number of requests of identity `h` with an instant in the window `[a, b]`
that are answered 200 when the events run from `clients`. -/
def admittedIn (split : String → Option (String × String)) (h : String) (a b : ℚ) :
    Registry → List Event → ℕ
  | _, [] => 0
  | clients, .request addr now :: rest =>
    let r := perClientRateLimiter split clients addr now now
    (if (split addr).map Prod.fst = some h ∧ a ≤ now ∧ now ≤ b ∧ r.2.code = StatusOK
      then 1 else 0) + admittedIn split h a b r.1 rest
  | clients, .reap now :: rest => admittedIn split h a b (sweep clients now) rest

/-- Progress of one request through the handler, cut where the handler takes
and releases the mutex `rmu`. -/
inductive Stage where
  | start (RemoteAddr : String)
  | tested (ip : String) (ok : Bool)
  | ensured (ip : String)
  | done (resp : Response)
deriving DecidableEq

/-- One step of a request in flight on the shared client map. From `start`:
`net.SplitHostPort` and the test `_, ok := clients[ip]`, made without the mutex.
From `tested`: the insert of a new client under `rmu.Lock` when `!ok`. From
`ensured`: the block under `rmu.RLock`, which stores `LastSeen`, asks the limiter
and writes the response. -/
def stepStage (split : String → Option (String × String)) (clients : Registry)
    (seen now : ℚ) : Stage → Registry × Stage
  | .start RemoteAddr =>
    match split RemoteAddr with
    | none => (clients, .done respError)
    | some (ip, _) => (clients, .tested ip (clients.lookup ip).isSome)
  | .tested ip ok =>
    if !ok then
      (clients.insert ip { LastSeen := 0, Limiter := NewLimiter 5 20 now }, .ensured ip)
    else (clients, .ensured ip)
  | .ensured ip =>
    match clients.lookup ip with
    | none => (clients, .done respError) -- nil dereference
    | some c =>
      let r := c.Limiter.allow now
      let clients2 := clients.insert ip { LastSeen := seen, Limiter := r.2 }
      if !r.1 then (clients2, .done respFailed) else (clients2, .done respOK)
  | .done resp => (clients, .done resp)

/-- Run requests in flight, each with its instant, under a schedule: every entry
of the schedule names the request that takes its next step. -/
def interleave (split : String → Option (String × String)) :
    Registry × List (ℚ × Stage) → List ℕ → Registry × List (ℚ × Stage)
  | st, [] => st
  | (clients, flights), i :: rest =>
    match flights.get? i with
    | none => interleave split (clients, flights) rest
    | some (t, stage) =>
      let r := stepStage split clients t t stage
      interleave split (r.1, flights.set i (t, r.2)) rest

/-- Two requests of one identity arriving at instant 0 on the empty client map. -/
def twoInFlight : Registry × List (ℚ × Stage) :=
  (emptyRegistry, [(0, .start "10.0.0.1:4000"), (0, .start "10.0.0.1:5000")])

/-- A sample address splitter for concrete runs: host is the text before the
first colon, port the text after it; an address without a colon does not split. -/
def splitColon (s : String) : Option (String × String) :=
  let cs := s.data
  if ':' ∈ cs then
    some (String.mk (cs.takeWhile (fun ch => ch != ':')),
          String.mk ((cs.dropWhile (fun ch => ch != ':')).drop 1))
  else none

/-- Tokens the bucket of `h` holds at instant `s` after refilling. -/
def availAt (clients : Registry) (h : String) (s : ℚ) : ℚ :=
  ((clientBucket clients h s).refill s).tokens

/-- A bucket of the default configuration whose state is consistent at time `s`. -/
structure GoodB (s : ℚ) (b : TokenBucket) : Prop where
  cap : b.capacity = 20
  rate : b.refillRate = 5
  nonneg : 0 ≤ b.tokens
  le_cap : b.tokens ≤ 20
  last_le : b.lastRefill ≤ s

/-- The entry of `h`, if there is one, is consistent at time `s`. -/
def EntryOK (s : ℚ) (clients : Registry) (h : String) : Prop :=
  ∀ c, clients.lookup h = some c → GoodB s c.Limiter ∧ c.LastSeen = c.Limiter.lastRefill

/-- Invariant of the client map at time `s`. -/
def Inv (s : ℚ) (clients : Registry) : Prop :=
  ∀ h, EntryOK s clients h

/-! ## The bucket -/

theorem NewLimiter_good (s : ℚ) : GoodB s (NewLimiter 5 20 s) :=
  ⟨rfl, rfl, by norm_num [NewLimiter], by norm_num [NewLimiter], le_refl _⟩

theorem goodB_mono {s s' : ℚ} {b : TokenBucket} (h : GoodB s b) (hs : s ≤ s') : GoodB s' b :=
  ⟨h.cap, h.rate, h.nonneg, h.le_cap, h.last_le.trans hs⟩

theorem refill_eq {s : ℚ} {b : TokenBucket} (h : GoodB s b) :
    b.refill s =
      { capacity := 20, refillRate := 5,
        tokens := min 20 (b.tokens + (s - b.lastRefill) * 5), lastRefill := s } := by
  obtain ⟨cap, rate, nonneg, le_cap, last_le⟩ := h
  cases b with
  | mk c r t l =>
    simp only at cap rate nonneg le_cap last_le
    subst cap rate
    unfold TokenBucket.refill
    by_cases hlt : s - l > 0
    · simp [hlt]
    · have : l = s := le_antisymm last_le (by linarith)
      subst this
      simp [le_cap]

theorem refill_tokens {s : ℚ} {b : TokenBucket} (h : GoodB s b) :
    (b.refill s).tokens = min 20 (b.tokens + (s - b.lastRefill) * 5) := by
  rw [refill_eq h]

theorem refill_tokens_nonneg {s : ℚ} {b : TokenBucket} (h : GoodB s b) :
    0 ≤ (b.refill s).tokens := by
  rw [refill_tokens h]
  have := h.nonneg
  have := h.last_le
  exact le_min (by norm_num) (by nlinarith)

theorem refill_tokens_le {s : ℚ} {b : TokenBucket} (h : GoodB s b) :
    (b.refill s).tokens ≤ 20 := by
  rw [refill_tokens h]
  exact min_le_left _ _

theorem allow_eq {s : ℚ} {b : TokenBucket} (h : GoodB s b) :
    b.allow s =
      (decide (1 ≤ (b.refill s).tokens),
        { capacity := 20, refillRate := 5,
          tokens := if 1 ≤ (b.refill s).tokens then (b.refill s).tokens - 1
                    else (b.refill s).tokens,
          lastRefill := s }) := by
  unfold TokenBucket.allow
  rw [refill_eq h]
  simp only [ge_iff_le]
  split_ifs with h1
  · simp [h1]
  · simp [h1]

theorem allow_good {s : ℚ} {b : TokenBucket} (h : GoodB s b) : GoodB s (b.allow s).2 := by
  have h0 := refill_tokens_nonneg h
  have h20 := refill_tokens_le h
  rw [allow_eq h]
  refine ⟨rfl, rfl, ?_, ?_, le_refl _⟩
  · simp only
    split_ifs <;> linarith
  · simp only
    split_ifs <;> linarith

/-! ## The handler -/

/-- After the get-or-create step the map has an entry for `ip`. -/
theorem lookup_ensured (clients : Registry) (ip : String) (now : ℚ) :
    ((match clients.lookup ip with
      | none => clients.insert ip { LastSeen := 0, Limiter := NewLimiter 5 20 now }
      | some _ => clients : Registry)).lookup ip =
      some (match clients.lookup ip with
        | none => { LastSeen := 0, Limiter := NewLimiter 5 20 now }
        | some c => c) := by
  cases hl : clients.lookup ip with
  | none => simp [AList.lookup_insert]
  | some c => simp [hl]

theorem handler_eq (split : String → Option (String × String)) (clients : Registry)
    (addr ip port : String) (seen now : ℚ) (hs : split addr = some (ip, port)) :
    perClientRateLimiter split clients addr seen now =
      (clients.insert ip
          { LastSeen := seen, Limiter := ((clientBucket clients ip now).allow now).2 },
        if ((clientBucket clients ip now).allow now).1 then respOK else respFailed) := by
  unfold perClientRateLimiter
  rw [hs]
  simp only
  rw [lookup_ensured]
  cases hl : clients.lookup ip with
  | none =>
    simp only [clientBucket, hl, AList.insert_insert]
    cases ((NewLimiter 5 20 now).allow now).1 <;> simp
  | some c =>
    simp only [clientBucket, hl]
    cases (c.Limiter.allow now).1 <;> simp

theorem handler_lookup_self (split : String → Option (String × String)) (clients : Registry)
    (addr ip port : String) (seen now : ℚ) (hs : split addr = some (ip, port)) :
    (perClientRateLimiter split clients addr seen now).1.lookup ip =
      some { LastSeen := seen, Limiter := ((clientBucket clients ip now).allow now).2 } := by
  rw [handler_eq split clients addr ip port seen now hs]
  exact AList.lookup_insert _

theorem handler_lookup_other (split : String → Option (String × String)) (clients : Registry)
    (addr ip port : String) (seen now : ℚ) (hs : split addr = some (ip, port))
    (h : String) (hne : h ≠ ip) :
    (perClientRateLimiter split clients addr seen now).1.lookup h = clients.lookup h := by
  rw [handler_eq split clients addr ip port seen now hs]
  exact AList.lookup_insert_ne hne

theorem handler_unsplit (split : String → Option (String × String)) (clients : Registry)
    (addr : String) (seen now : ℚ) (hs : split addr = none) :
    perClientRateLimiter split clients addr seen now = (clients, respError) := by
  unfold perClientRateLimiter
  rw [hs]

theorem entryOK_mono {s s' : ℚ} {clients : Registry} {h : String}
    (hE : EntryOK s clients h) (hs : s ≤ s') : EntryOK s' clients h :=
  fun c hc => ⟨goodB_mono (hE c hc).1 hs, (hE c hc).2⟩

theorem inv_mono {s s' : ℚ} {clients : Registry} (hI : Inv s clients) (hs : s ≤ s') :
    Inv s' clients :=
  fun h => entryOK_mono (hI h) hs

theorem inv_empty (s : ℚ) : Inv s emptyRegistry := by
  intro h c hc
  simp [emptyRegistry] at hc

theorem clientBucket_good {τ s : ℚ} {clients : Registry} {h : String}
    (hE : EntryOK τ clients h) (hs : τ ≤ s) : GoodB s (clientBucket clients h s) := by
  unfold clientBucket
  cases hl : clients.lookup h with
  | none => exact NewLimiter_good s
  | some c => exact goodB_mono (hE c hl).1 hs

theorem handler_entryOK {τ s : ℚ} (split : String → Option (String × String))
    (clients : Registry) (addr : String) (h : String)
    (hE : EntryOK τ clients h) (hs : τ ≤ s) :
    EntryOK s (perClientRateLimiter split clients addr s s).1 h := by
  cases hsp : split addr with
  | none =>
    rw [handler_unsplit split clients addr s s hsp]
    exact entryOK_mono hE hs
  | some p =>
    obtain ⟨ip, port⟩ := p
    by_cases hne : h = ip
    · subst hne
      intro c hc
      rw [handler_lookup_self split clients addr h port s s hsp] at hc
      cases hc
      have hg := clientBucket_good hE hs
      refine ⟨allow_good hg, ?_⟩
      rw [allow_eq hg]
    · intro c hc
      rw [handler_lookup_other split clients addr ip port s s hsp h hne] at hc
      exact (entryOK_mono hE hs) c hc

theorem handler_inv {τ s : ℚ} (split : String → Option (String × String))
    (clients : Registry) (addr : String) (hI : Inv τ clients) (hs : τ ≤ s) :
    Inv s (perClientRateLimiter split clients addr s s).1 :=
  fun h => handler_entryOK split clients addr h (hI h) hs

/-- The response to a request of `ip` is decided by the tokens available to `ip`. -/
theorem handler_resp {τ s : ℚ} (split : String → Option (String × String))
    (clients : Registry) (addr ip port : String) (hsp : split addr = some (ip, port))
    (hE : EntryOK τ clients ip) (hs : τ ≤ s) :
    (perClientRateLimiter split clients addr s s).2 =
      if 1 ≤ availAt clients ip s then respOK else respFailed := by
  rw [handler_eq split clients addr ip port s s hsp, allow_eq (clientBucket_good hE hs)]
  simp [availAt]

theorem availAt_eq {τ s : ℚ} {clients : Registry} {h : String}
    (hE : EntryOK τ clients h) (hs : τ ≤ s) :
    availAt clients h s =
      match clients.lookup h with
      | none => 20
      | some c => min 20 (c.Limiter.tokens + (s - c.Limiter.lastRefill) * 5) := by
  unfold availAt
  rw [refill_tokens (clientBucket_good hE hs)]
  unfold clientBucket
  cases hl : clients.lookup h with
  | none => simp [NewLimiter]
  | some c => rfl

theorem availAt_nonneg {τ s : ℚ} {clients : Registry} {h : String}
    (hE : EntryOK τ clients h) (hs : τ ≤ s) : 0 ≤ availAt clients h s :=
  refill_tokens_nonneg (clientBucket_good hE hs)

theorem availAt_le {τ s : ℚ} {clients : Registry} {h : String}
    (hE : EntryOK τ clients h) (hs : τ ≤ s) : availAt clients h s ≤ 20 :=
  refill_tokens_le (clientBucket_good hE hs)

/-- Between two instants the available tokens grow by at most the refill. -/
theorem availAt_growth {τ s s' : ℚ} {clients : Registry} {h : String}
    (hE : EntryOK τ clients h) (hs : τ ≤ s) (hss : s ≤ s') :
    availAt clients h s' ≤ availAt clients h s + 5 * (s' - s) := by
  rw [availAt_eq hE hs, availAt_eq hE (hs.trans hss)]
  cases hl : clients.lookup h with
  | none => simp only; linarith
  | some c =>
    simp only
    rcases le_total (20 : ℚ) (c.Limiter.tokens + (s - c.Limiter.lastRefill) * 5) with h1 | h1
    · rw [min_eq_left h1]
      have := min_le_left (20 : ℚ) (c.Limiter.tokens + (s' - c.Limiter.lastRefill) * 5)
      linarith
    · rw [min_eq_right h1]
      have := min_le_right (20 : ℚ) (c.Limiter.tokens + (s' - c.Limiter.lastRefill) * 5)
      linarith

/-- Tokens available to `ip` after one of its requests, at any later instant. -/
theorem availAt_handler_self {τ s s' : ℚ} (split : String → Option (String × String))
    (clients : Registry) (addr ip port : String) (hsp : split addr = some (ip, port))
    (hE : EntryOK τ clients ip) (hs : τ ≤ s) (hss : s ≤ s') :
    availAt (perClientRateLimiter split clients addr s s).1 ip s' =
      min 20 ((if 1 ≤ availAt clients ip s then availAt clients ip s - 1
               else availAt clients ip s) + (s' - s) * 5) := by
  rw [availAt_eq (handler_entryOK split clients addr ip hE hs) hss,
    handler_lookup_self split clients addr ip port s s hsp]
  simp only
  rw [allow_eq (clientBucket_good hE hs)]
  rfl

theorem availAt_handler_other (split : String → Option (String × String))
    (clients : Registry) (addr : String) (s s' : ℚ) (h : String)
    (hne : (split addr).map Prod.fst ≠ some h) :
    availAt (perClientRateLimiter split clients addr s s).1 h s' = availAt clients h s' := by
  cases hsp : split addr with
  | none => rw [handler_unsplit split clients addr s s hsp]
  | some p =>
    obtain ⟨ip, port⟩ := p
    have hne' : h ≠ ip := by
      intro he
      apply hne
      simp [hsp, he]
    unfold availAt clientBucket
    rw [handler_lookup_other split clients addr ip port s s hsp h hne']

/-! ## The reaper -/

theorem foldl_reap_lookup (now : ℚ) (h : String) (l : List (Sigma fun _ : String => client)) :
    ∀ acc : Registry,
      (l.foldl (fun acc e => if now - e.2.LastSeen > 60 then acc.erase e.1 else acc) acc).lookup h =
        if ∃ e ∈ l, e.1 = h ∧ now - e.2.LastSeen > 60 then none else acc.lookup h := by
  induction l with
  | nil => intro acc; simp
  | cons e l ih =>
    intro acc
    rw [List.foldl_cons, ih]
    by_cases hl : ∃ e' ∈ l, e'.1 = h ∧ now - e'.2.LastSeen > 60
    · have : ∃ e' ∈ e :: l, e'.1 = h ∧ now - e'.2.LastSeen > 60 := by
        obtain ⟨e', he', hp⟩ := hl
        exact ⟨e', List.mem_cons_of_mem _ he', hp⟩
      rw [if_pos hl, if_pos this]
    · rw [if_neg hl]
      by_cases he : e.1 = h ∧ now - e.2.LastSeen > 60
      · have : ∃ e' ∈ e :: l, e'.1 = h ∧ now - e'.2.LastSeen > 60 :=
          ⟨e, List.mem_cons_self _ _, he⟩
        rw [if_pos this, if_pos he.2, ← he.1]
        exact AList.lookup_erase _ _
      · have : ¬ ∃ e' ∈ e :: l, e'.1 = h ∧ now - e'.2.LastSeen > 60 := by
          rintro ⟨e', he', hp⟩
          rcases List.mem_cons.1 he' with rfl | hmem
          · exact he hp
          · exact hl ⟨e', hmem, hp⟩
        rw [if_neg this]
        by_cases hidle : now - e.2.LastSeen > 60
        · rw [if_pos hidle]
          have hne : h ≠ e.1 := fun hh => he ⟨hh.symm, hidle⟩
          exact AList.lookup_erase_ne hne
        · rw [if_neg hidle]

/-- What a pass of the reaper leaves of each entry. -/
theorem sweep_lookup (clients : Registry) (now : ℚ) (h : String) :
    (sweep clients now).lookup h =
      match clients.lookup h with
      | none => none
      | some c => if now - c.LastSeen > 60 then none else some c := by
  unfold sweep
  rw [foldl_reap_lookup]
  cases hl : clients.lookup h with
  | none =>
    simp only
    split_ifs <;> rfl
  | some c =>
    simp only
    have key : (∃ e ∈ clients.entries, e.1 = h ∧ now - e.2.LastSeen > 60) ↔
        now - c.LastSeen > 60 := by
      constructor
      · rintro ⟨⟨k, v⟩, hmem, hk, hidle⟩
        simp only at hk hidle
        subst hk
        have : v ∈ clients.lookup k := AList.mem_lookup_iff.2 hmem
        rw [hl] at this
        cases this
        exact hidle
      · intro hidle
        exact ⟨⟨h, c⟩, AList.mem_lookup_iff.1 (by rw [hl]; rfl), rfl, hidle⟩
    by_cases hidle : now - c.LastSeen > 60
    · rw [if_pos (key.2 hidle), if_pos hidle]
    · rw [if_neg (fun hh => hidle (key.1 hh)), if_neg hidle]

theorem sweep_entryOK {τ s : ℚ} {clients : Registry} {h : String}
    (hE : EntryOK τ clients h) (hs : τ ≤ s) : EntryOK s (sweep clients s) h := by
  intro c hc
  rw [sweep_lookup] at hc
  cases hl : clients.lookup h with
  | none => rw [hl] at hc; cases hc
  | some c' =>
    rw [hl] at hc
    simp only at hc
    split_ifs at hc
    cases hc
    exact (entryOK_mono hE hs) c hl

theorem sweep_inv {τ s : ℚ} {clients : Registry} (hI : Inv τ clients) (hs : τ ≤ s) :
    Inv s (sweep clients s) :=
  fun h => sweep_entryOK (hI h) hs

/-- An evicted bucket had refilled completely: the reaper does not change the
tokens available to any identity from the instant of the pass on. -/
theorem availAt_sweep {τ s s' : ℚ} {clients : Registry} {h : String}
    (hE : EntryOK τ clients h) (hs : τ ≤ s) (hss : s ≤ s') :
    availAt (sweep clients s) h s' = availAt clients h s' := by
  rw [availAt_eq (sweep_entryOK hE hs) hss, availAt_eq hE (hs.trans hss), sweep_lookup]
  cases hl : clients.lookup h with
  | none => rfl
  | some c =>
    simp only
    split_ifs with hidle
    · obtain ⟨hg, hseen⟩ := hE c hl
      rw [hseen] at hidle
      have := hg.nonneg
      simp only
      rw [min_eq_left]
      linarith
    · rfl

/-! ## Runs of requests at one instant -/

theorem availAt_shift {τ s s' : ℚ} {clients : Registry} {h : String}
    (hE : EntryOK τ clients h) (hs : τ ≤ s) (hss : s ≤ s') :
    availAt clients h s' = min 20 (availAt clients h s + (s' - s) * 5) := by
  rw [availAt_eq hE hs, availAt_eq hE (hs.trans hss)]
  cases hl : clients.lookup h with
  | none =>
    simp only
    rw [min_eq_left]
    exact le_add_of_nonneg_right (mul_nonneg (sub_nonneg.2 hss) (by norm_num))
  | some c =>
    simp only
    rcases le_total (20 : ℚ) (c.Limiter.tokens + (s - c.Limiter.lastRefill) * 5) with h1 | h1
    · rw [min_eq_left h1, min_eq_left (by linarith), min_eq_left (by linarith)]
    · rw [min_eq_right h1]
      congr 1
      ring

theorem availAt_absent (clients : Registry) (h : String) (s : ℚ)
    (hl : clients.lookup h = none) : availAt clients h s = 20 := by
  have hE : EntryOK s clients h := fun c hc => by rw [hl] at hc; cases hc
  rw [availAt_eq hE (le_refl s), hl]

/-- Tokens available to `ip` right after one of its requests. -/
theorem availAt_handler_now {τ s : ℚ} (split : String → Option (String × String))
    (clients : Registry) (addr ip port : String) (hsp : split addr = some (ip, port))
    (hE : EntryOK τ clients ip) (hs : τ ≤ s) :
    availAt (perClientRateLimiter split clients addr s s).1 ip s =
      if 1 ≤ availAt clients ip s then availAt clients ip s - 1 else availAt clients ip s := by
  have h20 := availAt_le hE hs
  rw [availAt_handler_self split clients addr ip port hsp hE hs (le_refl s), sub_self,
    zero_mul, add_zero]
  apply min_eq_right
  split_ifs <;> linarith

theorem floor_pred {x : ℚ} (hx : 1 ≤ x) : ⌊x - 1⌋₊ + 1 = ⌊x⌋₊ := by
  have h : ⌊x - 1 + 1⌋₊ = ⌊x - 1⌋₊ + 1 := Nat.floor_add_one (by linarith)
  rw [← h]
  congr 1
  ring

theorem host_split {split : String → Option (String × String)} {addr ip : String}
    (h : (split addr).map Prod.fst = some ip) : ∃ port, split addr = some (ip, port) := by
  cases hsp : split addr with
  | none => rw [hsp] at h; cases h
  | some p =>
    obtain ⟨ip', port⟩ := p
    rw [hsp] at h
    simp only [Option.map_some', Option.some.injEq] at h
    subst h
    exact ⟨port, rfl⟩

/-- A run of requests at one instant `T`, from any source addresses with host
`ip`, admits as many as there are whole tokens available to `ip` and rejects the
rest. -/
theorem serve_same (split : String → Option (String × String)) (ip : String) (T : ℚ)
    (addrs : List String) :
    ∀ (τ : ℚ) (clients : Registry), (∀ a ∈ addrs, (split a).map Prod.fst = some ip) →
      EntryOK τ clients ip → τ ≤ T →
      (serve split clients (addrs.map fun a => (a, T))).2 =
        List.replicate (min addrs.length ⌊availAt clients ip T⌋₊) respOK ++
          List.replicate (addrs.length - ⌊availAt clients ip T⌋₊) respFailed := by
  induction addrs with
  | nil => intro τ clients _ _ _; simp [serve]
  | cons addr rest ih =>
    intro τ clients hh hE hs
    obtain ⟨port, hsp⟩ := host_split (hh addr (List.mem_cons_self _ _))
    have hrest : ∀ a ∈ rest, (split a).map Prod.fst = some ip :=
      fun a ha => hh a (List.mem_cons_of_mem _ ha)
    have hE' := handler_entryOK split clients addr ip hE hs
    have hav := availAt_handler_now split clients addr ip port hsp hE hs
    rw [List.map_cons, serve]
    simp only
    rw [ih T _ hrest hE' (le_refl T), handler_resp split clients addr ip port hsp hE hs, hav,
      List.length_cons]
    by_cases h1 : 1 ≤ availAt clients ip T
    · rw [if_pos h1, if_pos h1]
      obtain ⟨k, hk⟩ : ∃ k, ⌊availAt clients ip T - 1⌋₊ = k := ⟨_, rfl⟩
      rw [← floor_pred h1, hk, Nat.succ_min_succ, Nat.succ_sub_succ, List.replicate_succ]
      rfl
    · rw [if_neg h1, if_neg h1]
      have hz : ⌊availAt clients ip T⌋₊ = 0 := Nat.floor_eq_zero.2 (lt_of_not_le h1)
      rw [hz]
      simp [List.replicate_succ]

theorem serve_same_entryOK (split : String → Option (String × String)) (ip : String)
    (T : ℚ) (addrs : List String) :
    ∀ (τ : ℚ) (clients : Registry), EntryOK τ clients ip → τ ≤ T →
      EntryOK T (serve split clients (addrs.map fun a => (a, T))).1 ip := by
  induction addrs with
  | nil => intro τ clients hE hs; exact entryOK_mono hE hs
  | cons addr rest ih =>
    intro τ clients hE hs
    rw [List.map_cons, serve]
    exact ih T _ (handler_entryOK split clients addr ip hE hs) (le_refl T)

/-- Tokens left to `ip` after a run of its requests at one instant `T`. -/
theorem serve_same_avail (split : String → Option (String × String)) (ip : String) (T : ℚ)
    (addrs : List String) :
    ∀ (τ : ℚ) (clients : Registry), (∀ a ∈ addrs, (split a).map Prod.fst = some ip) →
      EntryOK τ clients ip → τ ≤ T →
      availAt (serve split clients (addrs.map fun a => (a, T))).1 ip T =
        availAt clients ip T - (min addrs.length ⌊availAt clients ip T⌋₊ : ℕ) := by
  induction addrs with
  | nil => intro τ clients _ _ _; simp [serve]
  | cons addr rest ih =>
    intro τ clients hh hE hs
    obtain ⟨port, hsp⟩ := host_split (hh addr (List.mem_cons_self _ _))
    have hrest : ∀ a ∈ rest, (split a).map Prod.fst = some ip :=
      fun a ha => hh a (List.mem_cons_of_mem _ ha)
    have hE' := handler_entryOK split clients addr ip hE hs
    have hav := availAt_handler_now split clients addr ip port hsp hE hs
    rw [List.map_cons, serve]
    simp only
    rw [ih T _ hrest hE' (le_refl T), hav, List.length_cons]
    by_cases h1 : 1 ≤ availAt clients ip T
    · rw [if_pos h1]
      obtain ⟨k, hk⟩ : ∃ k, ⌊availAt clients ip T - 1⌋₊ = k := ⟨_, rfl⟩
      rw [← floor_pred h1, hk, Nat.succ_min_succ]
      push_cast
      ring
    · rw [if_neg h1]
      have hz : ⌊availAt clients ip T⌋₊ = 0 := Nat.floor_eq_zero.2 (lt_of_not_le h1)
      rw [hz]
      simp

/-! ## Claims -/

/-- C1: for an identity `ip` with no entry in the client map, a run of requests
issued at one instant `T` from any source addresses with host `ip` (any ports)
answers the first 20 with 200 (`respOK`) and request 21 and every later one with
429 (`respFailed`). -/
theorem C1_fresh_burst (split : String → Option (String × String)) (clients : Registry)
    (ip : String) (addrs : List String) (T : ℚ)
    (hhost : ∀ a ∈ addrs, (split a).map Prod.fst = some ip)
    (hfresh : clients.lookup ip = none) :
    (serve split clients (addrs.map fun a => (a, T))).2 =
        List.replicate (min addrs.length 20) respOK ++
          List.replicate (addrs.length - 20) respFailed ∧
      respOK.code = 200 ∧ respFailed.code = 429 := by
  have hE : EntryOK T clients ip := fun c hc => by rw [hfresh] at hc; cases hc
  have h := serve_same split ip T addrs T clients hhost hE (le_refl T)
  rw [availAt_absent clients ip T hfresh] at h
  have hf : ⌊(20 : ℚ)⌋₊ = 20 := Nat.floor_ofNat 20
  rw [hf] at h
  exact ⟨h, rfl, rfl⟩

theorem C1_fresh_burst_witness :
    (serve splitColon emptyRegistry
        ((List.replicate 12 "10.0.0.1:4000" ++ List.replicate 13 "10.0.0.1:5000").map
          fun a => (a, 7))).2 =
        List.replicate
            (min (List.replicate 12 "10.0.0.1:4000" ++ List.replicate 13 "10.0.0.1:5000").length
              20) respOK ++
          List.replicate
            ((List.replicate 12 "10.0.0.1:4000" ++ List.replicate 13 "10.0.0.1:5000").length - 20)
            respFailed ∧
      respOK.code = 200 ∧ respFailed.code = 429 :=
  C1_fresh_burst splitColon emptyRegistry "10.0.0.1"
    (List.replicate 12 "10.0.0.1:4000" ++ List.replicate 13 "10.0.0.1:5000") 7
    (by decide) (by rfl)

/-- C2: an identity `ip` with no entry exhausts its bucket by 20 requests at
instant `T` and then pauses for `t > 0` seconds; of a following run of requests
at instant `T + t` the first `min 20 ⌊5 t⌋` are answered 200 and the rest 429.
The requests come from any source addresses with host `ip` (any ports). -/
theorem C2_refill_after_pause (split : String → Option (String × String))
    (clients : Registry) (ip : String) (burst later : List String) (T t : ℚ)
    (hburst : ∀ a ∈ burst, (split a).map Prod.fst = some ip) (hlen : burst.length = 20)
    (hlater : ∀ a ∈ later, (split a).map Prod.fst = some ip)
    (hfresh : clients.lookup ip = none) (ht : 0 < t) :
    (serve split clients (burst.map fun a => (a, T))).2 = List.replicate 20 respOK ∧
      (serve split (serve split clients (burst.map fun a => (a, T))).1
          (later.map fun a => (a, T + t))).2 =
        List.replicate (min later.length (min 20 ⌊5 * t⌋₊)) respOK ++
          List.replicate (later.length - min 20 ⌊5 * t⌋₊) respFailed := by
  have hE : EntryOK T clients ip := fun c hc => by rw [hfresh] at hc; cases hc
  have hf : ⌊(20 : ℚ)⌋₊ = 20 := Nat.floor_ofNat 20
  have hle : T ≤ T + t := by linarith
  constructor
  · have h := serve_same split ip T burst T clients hburst hE (le_refl T)
    rw [availAt_absent clients ip T hfresh, hf, hlen] at h
    simpa using h
  · have hE20 := serve_same_entryOK split ip T burst T clients hE (le_refl T)
    have hav := serve_same_avail split ip T burst T clients hburst hE (le_refl T)
    rw [availAt_absent clients ip T hfresh, hf, hlen] at hav
    have hav0 : availAt (serve split clients (burst.map fun a => (a, T))).1 ip T = 0 := by
      rw [hav]; norm_num
    have hnow := availAt_shift hE20 (le_refl T) hle
    rw [hav0] at hnow
    have hfl : ⌊availAt (serve split clients (burst.map fun a => (a, T))).1 ip (T + t)⌋₊ =
        min 20 ⌊5 * t⌋₊ := by
      have hm : ⌊min (20 : ℚ) (5 * t)⌋₊ = min ⌊(20 : ℚ)⌋₊ ⌊5 * t⌋₊ :=
        Monotone.map_min (fun (x y : ℚ) hxy => Nat.floor_mono hxy)
      rw [hnow, ← hf, ← hm]
      congr 2
      ring
    have h := serve_same split ip (T + t) later T _ hlater hE20 hle
    rw [hfl] at h
    exact h

theorem C2_refill_after_pause_witness :
    (serve splitColon emptyRegistry
        ((List.replicate 10 "10.0.0.1:4000" ++ List.replicate 10 "10.0.0.1:5000").map
          fun a => (a, 3))).2 = List.replicate 20 respOK ∧
      (serve splitColon
          (serve splitColon emptyRegistry
            ((List.replicate 10 "10.0.0.1:4000" ++ List.replicate 10 "10.0.0.1:5000").map
              fun a => (a, 3))).1
          ((List.replicate 4 "10.0.0.1:6000" ++ List.replicate 4 "10.0.0.1:4000").map
            fun a => (a, 3 + 1))).2 =
        List.replicate
            (min (List.replicate 4 "10.0.0.1:6000" ++ List.replicate 4 "10.0.0.1:4000").length
              (min 20 ⌊5 * (1 : ℚ)⌋₊)) respOK ++
          List.replicate
            ((List.replicate 4 "10.0.0.1:6000" ++ List.replicate 4 "10.0.0.1:4000").length -
              min 20 ⌊5 * (1 : ℚ)⌋₊) respFailed :=
  C2_refill_after_pause splitColon emptyRegistry "10.0.0.1"
    (List.replicate 10 "10.0.0.1:4000" ++ List.replicate 10 "10.0.0.1:5000")
    (List.replicate 4 "10.0.0.1:6000" ++ List.replicate 4 "10.0.0.1:4000") 3 1
    (by decide) (by decide) (by decide) (by rfl) (by norm_num)

/-- C4: when the source address splits into host `ip` and a port, the handler
answers status 200 with payload `Request OK` / `OK` if and only if the bucket of
`ip` admits the request, and otherwise answers status 429 with payload
`Request Failed` / `The API is at capacity, try again later.`. -/
theorem C4_response_by_admission (split : String → Option (String × String))
    (clients : Registry) (addr ip port : String) (seen now : ℚ)
    (hsp : split addr = some (ip, port)) :
    (((perClientRateLimiter split clients addr seen now).2.code = 200 ∧
        (perClientRateLimiter split clients addr seen now).2.body =
          some { Status := "Request OK", Body := "OK" }) ↔
      ((clientBucket clients ip now).allow now).1 = true) ∧
    (((perClientRateLimiter split clients addr seen now).2.code = 429 ∧
        (perClientRateLimiter split clients addr seen now).2.body =
          some { Status := "Request Failed",
                 Body := "The API is at capacity, try again later." }) ↔
      ((clientBucket clients ip now).allow now).1 = false) := by
  rw [handler_eq split clients addr ip port seen now hsp]
  cases ((clientBucket clients ip now).allow now).1 <;>
    simp [respOK, respFailed, StatusOK, StatusTooManyRequests]

theorem C4_response_by_admission_witness :
    (((perClientRateLimiter splitColon emptyRegistry "10.0.0.1:4000" 0 0).2.code = 200 ∧
        (perClientRateLimiter splitColon emptyRegistry "10.0.0.1:4000" 0 0).2.body =
          some { Status := "Request OK", Body := "OK" }) ↔
      ((clientBucket emptyRegistry "10.0.0.1" 0).allow 0).1 = true) ∧
    (((perClientRateLimiter splitColon emptyRegistry "10.0.0.1:4000" 0 0).2.code = 429 ∧
        (perClientRateLimiter splitColon emptyRegistry "10.0.0.1:4000" 0 0).2.body =
          some { Status := "Request Failed",
                 Body := "The API is at capacity, try again later." }) ↔
      ((clientBucket emptyRegistry "10.0.0.1" 0).allow 0).1 = false) :=
  C4_response_by_admission splitColon emptyRegistry "10.0.0.1:4000" "10.0.0.1" "4000" 0 0
    (by decide)

/-- C5: when the source address does not split into host and port, the handler
answers status 500 with no header and no body and returns the client map as it
was. -/
theorem C5_unsplit_address (split : String → Option (String × String))
    (clients : Registry) (addr : String) (seen now : ℚ) (hsp : split addr = none) :
    perClientRateLimiter split clients addr seen now =
      (clients, { header := [], code := 500, body := none }) :=
  handler_unsplit split clients addr seen now hsp

theorem C5_unsplit_address_witness :
    perClientRateLimiter splitColon
        (perClientRateLimiter splitColon emptyRegistry "10.0.0.1:4000" 0 0).1 "no-port" 1 1 =
      ((perClientRateLimiter splitColon emptyRegistry "10.0.0.1:4000" 0 0).1,
        { header := [], code := 500, body := none }) :=
  C5_unsplit_address splitColon _ "no-port" 1 1 (by decide)

/-- C6: after a pass of the reaper at instant `now`, the entry of every
identity `h` is absent if it was absent or had `now - LastSeen > 60`, and is the
unchanged entry otherwise. -/
theorem C6_sweep_exact (clients : Registry) (now : ℚ) (h : String) :
    (sweep clients now).lookup h =
      match clients.lookup h with
      | none => none
      | some c => if now - c.LastSeen > 60 then none else some c :=
  sweep_lookup clients now h

/-- C9: handling a request whose source address has host `ip` leaves the entry of
every other identity `h` as it was: same bucket and `LastSeen` if present, absent
if absent. -/
theorem C9_frame (split : String → Option (String × String)) (clients : Registry)
    (addr ip port : String) (seen now : ℚ) (hsp : split addr = some (ip, port))
    (h : String) (hne : h ≠ ip) :
    (perClientRateLimiter split clients addr seen now).1.lookup h = clients.lookup h :=
  handler_lookup_other split clients addr ip port seen now hsp h hne

theorem C9_frame_witness :
    (perClientRateLimiter splitColon
        (perClientRateLimiter splitColon emptyRegistry "10.0.0.2:80" 0 0).1
        "10.0.0.1:4000" 1 1).1.lookup "10.0.0.2" =
      (perClientRateLimiter splitColon emptyRegistry "10.0.0.2:80" 0 0).1.lookup "10.0.0.2" :=
  C9_frame splitColon _ "10.0.0.1:4000" "10.0.0.1" "4000" 1 1 (by decide) "10.0.0.2" (by decide)

/-- C7: on a request that is admitted the handler writes the JSON payload
`Request OK` / `OK` but sets no `Content-Type` header, and likewise on a request
that is rejected, while `endpointHandler` sets `Content-Type: application/json`. -/
theorem C7_no_content_type :
    (perClientRateLimiter splitColon emptyRegistry "10.0.0.1:4000" 0 0).2 =
        { header := [], code := 200, body := some { Status := "Request OK", Body := "OK" } } ∧
      (perClientRateLimiter splitColon emptyRegistry "10.0.0.1:4000" 0 0).2.header.lookup
          "Content-Type" = none ∧
      (serve splitColon emptyRegistry (List.replicate 21 ("10.0.0.1:4000", 0))).2.getLast? =
        some { header := [], code := 429,
               body := some { Status := "Request Failed",
                              Body := "The API is at capacity, try again later." } } ∧
      endpointHandler.header.lookup "Content-Type" = some "application/json" := by
  decide!

/-! ## Sequential executions with reaper passes -/

/-- Two client maps that agree on the tokens available to every identity from
time `τ` on answer every later sequence of events alike, whether or not the
reaper passes run. -/
theorem run_reap_free (split : String → Option (String × String)) (evs : List Event) :
    ∀ (τ : ℚ) (c1 c2 : Registry), Inv τ c1 → Inv τ c2 →
      (∀ h s, τ ≤ s → availAt c1 h s = availAt c2 h s) →
      (∀ e ∈ evs, τ ≤ e.time) → List.Pairwise (· ≤ ·) (evs.map Event.time) →
      (run split c1 evs).2 = (run split c2 (evs.filter Event.isRequest)).2 := by
  induction evs with
  | nil => intro τ c1 c2 _ _ _ _ _; simp [run]
  | cons e rest ih =>
    intro τ c1 c2 hI1 hI2 hav hge hsorted
    have hτ : τ ≤ e.time := hge e (List.mem_cons_self _ _)
    rw [List.map_cons, List.pairwise_cons] at hsorted
    have hrest : ∀ e' ∈ rest, e.time ≤ e'.time := fun e' he' =>
      hsorted.1 _ (List.mem_map_of_mem _ he')
    cases e with
    | request addr s =>
      simp only [Event.time] at hτ hrest
      have hresp : (perClientRateLimiter split c1 addr s s).2 =
          (perClientRateLimiter split c2 addr s s).2 := by
        cases hsp : split addr with
        | none => rw [handler_unsplit split c1 addr s s hsp, handler_unsplit split c2 addr s s hsp]
        | some p =>
          obtain ⟨ip, port⟩ := p
          rw [handler_resp split c1 addr ip port hsp (hI1 ip) hτ,
            handler_resp split c2 addr ip port hsp (hI2 ip) hτ, hav ip s hτ]
      have hav' : ∀ h s', s ≤ s' →
          availAt (perClientRateLimiter split c1 addr s s).1 h s' =
            availAt (perClientRateLimiter split c2 addr s s).1 h s' := by
        intro h s' hss
        by_cases hh : (split addr).map Prod.fst = some h
        · cases hsp : split addr with
          | none => rw [hsp] at hh; cases hh
          | some p =>
            obtain ⟨ip, port⟩ := p
            rw [hsp] at hh
            simp only [Option.map_some', Option.some.injEq] at hh
            subst hh
            rw [availAt_handler_self split c1 addr ip port hsp (hI1 ip) hτ hss,
              availAt_handler_self split c2 addr ip port hsp (hI2 ip) hτ hss, hav ip s hτ]
        · rw [availAt_handler_other split c1 addr s s' h hh,
            availAt_handler_other split c2 addr s s' h hh]
          exact hav h s' (hτ.trans hss)
      have hfil : (Event.request addr s :: rest).filter Event.isRequest =
          Event.request addr s :: rest.filter Event.isRequest := by
        simp [Event.isRequest]
      rw [hfil, run, run]
      simp only
      rw [hresp, ih s _ _ (handler_inv split c1 addr hI1 hτ) (handler_inv split c2 addr hI2 hτ)
        hav' hrest hsorted.2]
    | reap s =>
      simp only [Event.time] at hτ hrest
      have hfil : (Event.reap s :: rest).filter Event.isRequest =
          rest.filter Event.isRequest := by
        simp [Event.isRequest]
      rw [hfil, run]
      refine ih s _ _ (sweep_inv hI1 hτ) (inv_mono hI2 hτ) ?_ hrest hsorted.2
      intro h s' hss
      rw [availAt_sweep (hI1 h) hτ hss]
      exact hav h s' (hτ.trans hss)

/-- C10: for every sequence of requests and reaper passes whose instants are
non-decreasing, run from the empty client map, the responses to the requests
are those of the same sequence with all reaper passes removed. -/
theorem C10_reaper_invisible (split : String → Option (String × String)) (evs : List Event)
    (hsorted : List.Pairwise (· ≤ ·) (evs.map Event.time)) :
    (run split emptyRegistry evs).2 =
      (run split emptyRegistry (evs.filter Event.isRequest)).2 := by
  cases evs with
  | nil => rfl
  | cons e rest =>
    refine run_reap_free split (e :: rest) e.time emptyRegistry emptyRegistry
      (inv_empty _) (inv_empty _) (fun _ _ _ => rfl) ?_ hsorted
    intro e' he'
    rw [List.map_cons, List.pairwise_cons] at hsorted
    rcases List.mem_cons.1 he' with rfl | hmem
    · exact le_refl _
    · exact hsorted.1 _ (List.mem_map_of_mem _ hmem)

theorem C10_reaper_invisible_witness :
    (run splitColon emptyRegistry
        [Event.request "10.0.0.1:4000" 0, Event.request "10.0.0.1:4000" 0, Event.reap 61,
          Event.request "10.0.0.1:4000" 61]).2 =
      (run splitColon emptyRegistry
        ([Event.request "10.0.0.1:4000" 0, Event.request "10.0.0.1:4000" 0, Event.reap 61,
          Event.request "10.0.0.1:4000" 61].filter Event.isRequest)).2 :=
  C10_reaper_invisible splitColon _ (by norm_num [Event.time])

/-- A request never raises the tokens available to an identity at later instants. -/
theorem availAt_handler_le {τ s s' : ℚ} (split : String → Option (String × String))
    (clients : Registry) (addr : String) (h : String)
    (hE : EntryOK τ clients h) (hs : τ ≤ s) (hss : s ≤ s') :
    availAt (perClientRateLimiter split clients addr s s).1 h s' ≤ availAt clients h s' := by
  by_cases hh : (split addr).map Prod.fst = some h
  · cases hsp : split addr with
    | none => rw [hsp] at hh; cases hh
    | some p =>
      obtain ⟨ip, port⟩ := p
      rw [hsp] at hh
      simp only [Option.map_some', Option.some.injEq] at hh
      subst hh
      rw [availAt_handler_self split clients addr ip port hsp hE hs hss,
        availAt_shift hE hs hss]
      apply min_le_min_left
      split_ifs <;> linarith
  · rw [availAt_handler_other split clients addr s s' h hh]

/-- Passing an event that is not counted does not raise the bound on the number
of admissions still possible in the window `[a, b]`. -/
theorem bound_step {τ s a b : ℚ} {c c' : Registry} {h : String}
    (hE : EntryOK τ c h) (hs : τ ≤ s)
    (hle : ∀ s', s ≤ s' → availAt c' h s' ≤ availAt c h s') :
    max 0 (availAt c' h (max s a) + 5 * (b - max s a)) ≤
      max 0 (availAt c h (max τ a) + 5 * (b - max τ a)) := by
  have h1 := hle (max s a) (le_max_left _ _)
  have h2 := availAt_growth hE (le_max_left τ a) (max_le_max hs (le_refl a))
  exact max_le_max (le_refl _) (by linarith)

/-- From a client map whose entry for `h` is consistent at time `τ`, the requests
of `h` admitted in the window `[a, b]` by later events number at most the tokens
available at the start of what is left of the window plus the refill over it. -/
theorem admittedIn_le (split : String → Option (String × String)) (h : String) (a b : ℚ)
    (evs : List Event) :
    ∀ (τ : ℚ) (clients : Registry), EntryOK τ clients h →
      (∀ e ∈ evs, τ ≤ e.time) → List.Pairwise (· ≤ ·) (evs.map Event.time) →
      (admittedIn split h a b clients evs : ℚ) ≤
        max 0 (availAt clients h (max τ a) + 5 * (b - max τ a)) := by
  induction evs with
  | nil => intro τ clients _ _ _; simp [admittedIn]
  | cons e rest ih =>
    intro τ clients hE hge hsorted
    have hτ : τ ≤ e.time := hge e (List.mem_cons_self _ _)
    rw [List.map_cons, List.pairwise_cons] at hsorted
    have hrest : ∀ e' ∈ rest, e.time ≤ e'.time := fun e' he' =>
      hsorted.1 _ (List.mem_map_of_mem _ he')
    cases e with
    | request addr s =>
      simp only [Event.time] at hτ hrest
      have hE' := handler_entryOK split clients addr h hE hτ
      have hIH := ih s _ hE' hrest hsorted.2
      rw [admittedIn]
      push_cast
      by_cases hc : (split addr).map Prod.fst = some h ∧ a ≤ s ∧ s ≤ b ∧
          (perClientRateLimiter split clients addr s s).2.code = StatusOK
      · rw [if_pos hc]
        obtain ⟨hh, has, hsb, hcode⟩ := hc
        cases hsp : split addr with
        | none => rw [hsp] at hh; cases hh
        | some p =>
          obtain ⟨ip, port⟩ := p
          rw [hsp] at hh
          simp only [Option.map_some', Option.some.injEq] at hh
          subst hh
          have h1 : 1 ≤ availAt clients ip s := by
            by_contra hn
            rw [handler_resp split clients addr ip port hsp hE hτ, if_neg hn] at hcode
            revert hcode
            decide
          have hnow := availAt_handler_now split clients addr ip port hsp hE hτ
          rw [if_pos h1] at hnow
          rw [max_eq_left has, hnow] at hIH
          have hgrow := availAt_growth hE (le_max_left τ a) (max_le hτ has)
          have hpos : 0 ≤ availAt clients ip s - 1 + 5 * (b - s) := by linarith
          rw [max_eq_right hpos] at hIH
          refine le_trans ?_ (le_max_right _ _)
          linarith
      · rw [if_neg hc]
        rw [zero_add]
        exact hIH.trans
          (bound_step hE hτ (fun s' hss => availAt_handler_le split clients addr h hE hτ hss))
    | reap s =>
      simp only [Event.time] at hτ hrest
      rw [admittedIn]
      exact (ih s _ (sweep_entryOK hE hτ) hrest hsorted.2).trans
        (bound_step hE hτ (fun s' hss => le_of_eq (availAt_sweep hE hτ hss)))

/-- C3 as stated fails: run from the empty client map, 25 requests of one
identity at instant 0 followed by 5 at instant 1 lie in the window `[0, 1]`,
which is shorter than 20 / 5 seconds, and 25 of them are answered 200. -/
theorem C3_counterexample :
    (1 : ℚ) - 0 < 20 / 5 ∧
      admittedIn splitColon "10.0.0.1" 0 1 emptyRegistry
        (List.replicate 25 (Event.request "10.0.0.1:4000" 0) ++
          List.replicate 5 (Event.request "10.0.0.1:4000" 1)) = 25 ∧
      ¬ (admittedIn splitColon "10.0.0.1" 0 1 emptyRegistry
        (List.replicate 25 (Event.request "10.0.0.1:4000" 0) ++
          List.replicate 5 (Event.request "10.0.0.1:4000" 1)) ≤ 20) := by
  decide!

/-- C3, amended: for every identity `h` and every sequence of requests and reaper
passes with non-decreasing instants, run from the empty client map, the number
of requests of `h` with an instant in a window `[a, b]` that are answered 200 is
at most `20 + 5 * (b - a)`: the capacity plus the refill over the window. -/
theorem C3_window_bound (split : String → Option (String × String)) (h : String) (a b : ℚ)
    (evs : List Event) (hsorted : List.Pairwise (· ≤ ·) (evs.map Event.time))
    (hab : a ≤ b) :
    (admittedIn split h a b emptyRegistry evs : ℚ) ≤ 20 + 5 * (b - a) := by
  cases evs with
  | nil =>
    simp only [admittedIn, Nat.cast_zero]
    linarith
  | cons e rest =>
    have hge : ∀ e' ∈ e :: rest, e.time ≤ e'.time := by
      intro e' he'
      rw [List.map_cons, List.pairwise_cons] at hsorted
      rcases List.mem_cons.1 he' with rfl | hmem
      · exact le_refl _
      · exact hsorted.1 _ (List.mem_map_of_mem _ hmem)
    have hE : EntryOK e.time emptyRegistry h := inv_empty _ h
    have hb := admittedIn_le split h a b (e :: rest) e.time emptyRegistry hE hge hsorted
    rw [availAt_absent emptyRegistry h _ rfl] at hb
    refine hb.trans (max_le (by linarith) ?_)
    have := le_max_right e.time a
    linarith

theorem C3_window_bound_witness :
    (admittedIn splitColon "10.0.0.1" 0 1 emptyRegistry
        (List.replicate 25 (Event.request "10.0.0.1:4000" 0) ++
          List.replicate 5 (Event.request "10.0.0.1:4000" 1)) : ℚ) ≤ 20 + 5 * (1 - 0) :=
  C3_window_bound splitColon "10.0.0.1" 0 1 _ (by decide!) (by norm_num)

/-! ## Concurrent requests -/

/-- The three steps of a request, taken with no other request in between, are
the handler. -/
theorem stepStage_compose (split : String → Option (String × String)) (clients : Registry)
    (addr : String) (seen now : ℚ) :
    stepStage split
        (stepStage split (stepStage split clients seen now (.start addr)).1 seen now
          (stepStage split clients seen now (.start addr)).2).1 seen now
        (stepStage split (stepStage split clients seen now (.start addr)).1 seen now
          (stepStage split clients seen now (.start addr)).2).2 =
      ((perClientRateLimiter split clients addr seen now).1,
        .done (perClientRateLimiter split clients addr seen now).2) := by
  unfold perClientRateLimiter
  cases hsp : split addr with
  | none => simp [stepStage, hsp]
  | some p =>
    obtain ⟨ip, port⟩ := p
    cases hl : clients.lookup ip with
    | none =>
      simp only [stepStage, hsp, hl, Option.isSome_none, Bool.not_false, if_true,
        AList.lookup_insert]
      cases ((NewLimiter 5 20 now).allow now).1 <;> simp
    | some c =>
      simp only [stepStage, hsp, hl, Option.isSome_some, Bool.not_true]
      cases hb : (c.Limiter.allow now).1 <;> simp [hl, hb]

/-- A request scheduled alone behaves as the handler. -/
theorem interleave_alone (split : String → Option (String × String)) (clients : Registry)
    (addr : String) (t : ℚ) :
    interleave split (clients, [(t, .start addr)]) [0, 0, 0] =
      ((perClientRateLimiter split clients addr t t).1,
        [(t, .done (perClientRateLimiter split clients addr t t).2)]) := by
  have h := stepStage_compose split clients addr t t
  simp only [interleave, List.get?, List.set]
  rw [h]

/-- C8: two requests of the identity `10.0.0.1` arrive at instant 0 on the empty
client map and are scheduled test, test, insert, serve, insert, serve. Both are
answered 200. After the first is served its bucket holds 19 tokens; the insert of
the second replaces it by a second, full bucket, and at the end the bucket holds
19 tokens, where the same two requests one after the other leave 18: a duplicate
bucket and a lost token consumption. -/
theorem C8_duplicate_bucket :
    (interleave splitColon twoInFlight [0, 1, 0, 0, 1, 1]).2 =
        [(0, .done respOK), (0, .done respOK)] ∧
      ((interleave splitColon twoInFlight [0, 1, 0, 0]).1.lookup "10.0.0.1").map
          (fun c => c.Limiter.tokens) = some 19 ∧
      ((interleave splitColon twoInFlight [0, 1, 0, 0, 1]).1.lookup "10.0.0.1").map
          (fun c => c.Limiter.tokens) = some 20 ∧
      ((interleave splitColon twoInFlight [0, 1, 0, 0, 1, 1]).1.lookup "10.0.0.1").map
          (fun c => c.Limiter.tokens) = some 19 ∧
      ((interleave splitColon twoInFlight [0, 0, 0, 1, 1, 1]).1.lookup "10.0.0.1").map
          (fun c => c.Limiter.tokens) = some 18 ∧
      ((serve splitColon emptyRegistry
          [("10.0.0.1:4000", 0), ("10.0.0.1:5000", 0)]).1.lookup "10.0.0.1").map
          (fun c => c.Limiter.tokens) = some 18 := by
  decide!

end RateLimit
